import Mathlib

/-!
Formal model of the RFF sharpe-sweep pipeline of this repository:
`src/features/rff.py`, `src/portfolio/markowitz.py`, `src/experiments/sharpe_sweep.py`.

Float matrices are modelled as real matrices; a pandas `NaN` entry is modelled as
`Option.none`; a raised exception is modelled as `Except.error`.  The model covers the
`use_pls = False` path of `run_sharpe_sweep` (the default of the entry point).
-/

open Matrix

set_option maxRecDepth 10000

/-- Modelled from the spec: the seeded pseudorandom source (numpy `default_rng`).
Every call of `rff_features` re-creates the generator from the configured seed, so each
draw is a pure function of the seed and the requested shape.  `normalDraw seed k n i j`
is the `(i, j)` entry of the standard-normal matrix drawn for shape `(k, n)`;
`choiceIdx seed k n` is the index drawn next (from the same stream, immediately after
the normal matrix) into the discrete gamma candidate set. -/
structure RNGModel where
  normalDraw : ℕ → ℕ → ℕ → ℕ → ℕ → ℝ
  choiceIdx : ℕ → ℕ → ℕ → Fin 6

/-- The fixed discrete candidate set for gamma in `rff_features`. -/
noncomputable def gammaCandidates : List ℝ := [0.5, 0.6, 0.7, 0.8, 0.9, 1.0]

/-- `RFFConfig` from src/features/rff.py. -/
structure RFFConfig where
  random_seed : ℕ

/-- The matrix `omega` drawn in `rff_features`: `rng.normal(0, 1, size=(k, n))`. -/
noncomputable def rffOmega (rng : RNGModel) (seed k n : ℕ) : Matrix (Fin k) (Fin n) ℝ :=
  fun i j => rng.normalDraw seed k n i j

/-- The scalar `gamma` drawn in `rff_features`:
`rng.choice([0.5, 0.6, 0.7, 0.8, 0.9, 1.0])`. -/
noncomputable def rffGamma (rng : RNGModel) (seed k n : ℕ) : ℝ :=
  gammaCandidates.getD (rng.choiceIdx seed k n : ℕ) 0

/-- The projection `proj = X @ omega * gamma` of `rff_features`. -/
noncomputable def rffProj (rng : RNGModel) (seed : ℕ) {m k : ℕ}
    (X : Matrix (Fin m) (Fin k) ℝ) (n : ℕ) : Matrix (Fin m) (Fin n) ℝ :=
  fun i j => (∑ t, X i t * rffOmega rng seed k n t j) * rffGamma rng seed k n

/-- `rff_features` from src/features/rff.py:
`hstack [sqrt(2/n) * cos(proj), sqrt(2/n) * sin(proj)]`, giving `2 * n` columns,
the first `n` cosine columns and the last `n` sine columns. -/
noncomputable def rff_features (rng : RNGModel) (cfg : RFFConfig) {m k : ℕ}
    (X : Matrix (Fin m) (Fin k) ℝ) (n : ℕ) : Matrix (Fin m) (Fin (2 * n)) ℝ :=
  fun i j =>
    if h : (j : ℕ) < n then
      Real.sqrt (2 / n) * Real.cos (rffProj rng cfg.random_seed X n i ⟨j, h⟩)
    else
      Real.sqrt (2 / n) *
        Real.sin (rffProj rng cfg.random_seed X n i ⟨(j : ℕ) - n, by have := j.isLt; omega⟩)

/-- Column mean of a feature matrix (used by `np.cov`). -/
noncomputable def colMean {m d : ℕ} (X : Matrix (Fin m) (Fin d) ℝ) (j : Fin d) : ℝ :=
  (∑ i, X i j) / m

/-- `expected_return_and_cov` from src/portfolio/markowitz.py:
`F_t = X^T y` and `cov = np.cov(X.T)` (sample covariance across assets, divisor `m - 1`). -/
noncomputable def expected_return_and_cov {m d : ℕ} (X : Matrix (Fin m) (Fin d) ℝ)
    (y : Fin m → ℝ) : (Fin d → ℝ) × Matrix (Fin d) (Fin d) ℝ :=
  (fun j => ∑ i, X i j * y i,
   fun j l => (∑ i, (X i j - colMean X j) * (X i l - colMean X l)) / ((m : ℝ) - 1))

/-- One ridge solve of `ridge_markowitz_weights`: `np.linalg.solve(cov + lam * I, F_t)`.
`np.linalg.solve` raises `LinAlgError` on a singular system, modelled as `Except.error`;
on a nonsingular system it returns the unique solution `(cov + lam * I)⁻¹ F_t`. -/
noncomputable def solveOne {d : ℕ} (F : Fin d → ℝ) (cov : Matrix (Fin d) (Fin d) ℝ)
    (lam : ℝ) : Except String (Fin d → ℝ) :=
  if (cov + lam • 1).det = 0 then .error "Singular matrix"
  else .ok ((cov + lam • 1)⁻¹.mulVec F)

/-- Error-propagating map, modelling a Python loop whose body may raise: the first
raised exception aborts the whole loop. -/
def mapME {β γ : Type} (f : β → Except String γ) : List β → Except String (List γ)
  | [] => .ok []
  | x :: xs =>
    match f x with
    | .error e => .error e
    | .ok y =>
      match mapME f xs with
      | .error e => .error e
      | .ok ys => .ok (y :: ys)

/-- Whether an `Except` is an error. -/
def Except.isErr {ε α : Type} : Except ε α → Bool
  | .error _ => true
  | .ok _ => false

/-- `ridge_markowitz_weights` from src/portfolio/markowitz.py: solve
`(cov + lam * I) w = F_t` for each lambda in turn. -/
noncomputable def ridge_markowitz_weights {d : ℕ} (F : Fin d → ℝ)
    (cov : Matrix (Fin d) (Fin d) ℝ) (lams : List ℝ) : Except String (List (Fin d → ℝ)) :=
  mapME (solveOne F cov) lams

/-- One record of the merged panel: one (TradingDay, SecuCode) row with its realized
return `ret` (`none` models NaN) and its factor-exposure columns. -/
structure Row where
  day : ℕ
  asset : ℕ
  ret : Option ℝ
  factors : List ℝ

instance : Inhabited Row := ⟨⟨0, 0, none, []⟩⟩

/-- A row surviving `dropna(subset=["past_ret_ave", "ret"])`: both the realized return
and the rolling proxy are present. -/
structure ERow where
  day : ℕ
  asset : ℕ
  ret : ℝ
  pastAvg : ℝ
  factors : List ℝ

/-- Lexicographic (TradingDay, SecuCode) key order used by
`df.sort_values(["TradingDay", "SecuCode"])`. -/
def keyLe (r s : Row) : Prop :=
  r.day < s.day ∨ (r.day = s.day ∧ r.asset ≤ s.asset)

instance (r s : Row) : Decidable (keyLe r s) := by unfold keyLe; infer_instance

/-- Insertion step of the panel sort. -/
def insertRow (r : Row) : List Row → List Row
  | [] => [r]
  | s :: rest => if keyLe r s then r :: s :: rest else s :: insertRow r rest

/-- `df.sort_values(["TradingDay", "SecuCode"])` (insertion sort on the key order;
keys are unique per the panel invariant, so any correct sort agrees). -/
def sortPanel : List Row → List Row
  | [] => []
  | r :: rest => insertRow r (sortPanel rest)

/-- The rolling value of `x.rolling(5, min_periods=5).mean()` at position `j`:
defined only when the window `j-4..j` exists and holds 5 non-missing returns. -/
noncomputable def rollingAt (xs : List (Option ℝ)) (j : ℕ) : Option ℝ :=
  if 4 ≤ j then
    let win := (xs.drop (j - 4)).take 5
    if win.all Option.isSome then some ((win.filterMap id).sum / 5) else none
  else none

/-- `pandas.Series.shift(1)`: prepend a missing value, drop the last value (the length
is preserved). -/
def shift1 (xs : List (Option ℝ)) : List (Option ℝ) :=
  (none :: xs).take xs.length

/-- `_compute_past_return_avg` applied to one asset's return series (in trading-day
order): `x.rolling(5, min_periods=5).mean().shift(1)`. -/
noncomputable def compute_past_return_avg (xs : List (Option ℝ)) : List (Option ℝ) :=
  shift1 ((List.range xs.length).map (rollingAt xs))

/-- The return series of one asset, in panel order (the panel is sorted by day). -/
def assetSeries (p : List Row) (a : ℕ) : List (Option ℝ) :=
  (p.filter (fun r => r.asset = a)).map (fun r => r.ret)

/-- Position of row `i` inside its asset's group, in frame order (groupby-transform
alignment). -/
def rowPosition (p : List Row) (i : ℕ) : ℕ :=
  ((p.take i).filter (fun r => r.asset = (p.getD i default).asset)).length

/-- `df["past_ret_ave"] = _compute_past_return_avg(df)`: each row of the sorted panel
paired with its rolling-proxy value. -/
noncomputable def withProxy (p : List Row) : List (Row × Option ℝ) :=
  (List.range p.length).map fun i =>
    let r := p.getD i default
    (r, (compute_past_return_avg (assetSeries p r.asset)).getD (rowPosition p i) none)

/-- The function applied by `df.dropna(subset=["past_ret_ave", "ret"])`: keep a row iff
both its proxy and its realized return are present. -/
def dropnaFun (rp : Row × Option ℝ) : Option ERow :=
  match rp.2, rp.1.ret with
  | some pa, some t => some ⟨rp.1.day, rp.1.asset, t, pa, rp.1.factors⟩
  | _, _ => none

/-- `df.dropna(subset=["past_ret_ave", "ret"])`. -/
def dropna (l : List (Row × Option ℝ)) : List ERow :=
  l.filterMap dropnaFun

/-- The panel preparation of `run_sharpe_sweep` before the grid loops: sort, attach the
rolling proxy, drop rows with a missing proxy or realized return. -/
noncomputable def preprocess (p : List Row) : List ERow :=
  dropna (withProxy (sortPanel p))

/-- `df["TradingDay"].unique()`: the trading days of the filtered panel, first
occurrence order. -/
def uniqueDays (el : List ERow) : List ℕ :=
  (el.map (fun e => e.day)).foldl (fun acc d => if d ∈ acc then acc else acc ++ [d]) []

/-- Exposure matrix `day_df[factor_names]` of a day slice (`k` factor columns). -/
def exposures (k : ℕ) (rows : List ERow) : Matrix (Fin rows.length) (Fin k) ℝ :=
  fun i j => ((rows.get i).factors).getD (j : ℕ) 0

/-- Proxy expected-return vector `day_df["past_ret_ave"]` of a day slice. -/
def proxyVec (rows : List ERow) : Fin rows.length → ℝ :=
  fun i => (rows.get i).pastAvg

/-- Realized-return vector `day_df["ret"]` of a day slice. -/
def retVec (rows : List ERow) : Fin rows.length → ℝ :=
  fun i => (rows.get i).ret

/-- The RFF feature matrix built for one day slice. -/
noncomputable def dayFeats (rng : RNGModel) (cfg : RFFConfig) (k n : ℕ)
    (rows : List ERow) : Matrix (Fin rows.length) (Fin (2 * n)) ℝ :=
  rff_features rng cfg (exposures k rows) n

/-- `F_t` of a day slice (feature-space expected-return vector from the proxy target). -/
noncomputable def dayF (rng : RNGModel) (cfg : RFFConfig) (k n : ℕ)
    (rows : List ERow) : Fin (2 * n) → ℝ :=
  (expected_return_and_cov (dayFeats rng cfg k n rows) (proxyVec rows)).1

/-- `cov` of a day slice (feature covariance across the day's assets). -/
noncomputable def dayCov (rng : RNGModel) (cfg : RFFConfig) (k n : ℕ)
    (rows : List ERow) : Matrix (Fin (2 * n)) (Fin (2 * n)) ℝ :=
  (expected_return_and_cov (dayFeats rng cfg k n rows) (proxyVec rows)).2

/-- `ofs_Ft` of a day slice (feature-space projection of the same-day realized
returns; only the linear term is used). -/
noncomputable def dayRealF (rng : RNGModel) (cfg : RFFConfig) (k n : ℕ)
    (rows : List ERow) : Fin (2 * n) → ℝ :=
  (expected_return_and_cov (dayFeats rng cfg k n rows) (retVec rows)).1

/-- The inner-loop body of `run_sharpe_sweep` for one day and one (n_factors, lambda)
cell: build features, estimate `(F_t, cov)` from the proxy, solve the ridge system,
and return `w @ ofs_Ft`.  A singular solve propagates as an error (no handler). -/
noncomputable def dayReturn (rng : RNGModel) (cfg : RFFConfig) (k n : ℕ) (lam : ℝ)
    (rows : List ERow) : Except String ℝ :=
  Except.map (fun ws => (ws.getD 0 (fun _ => 0)) ⬝ᵥ dayRealF rng cfg k n rows)
    (ridge_markowitz_weights (dayF rng cfg k n rows) (dayCov rng cfg k n rows) [lam])

/-- Mean/std/sharpe triple of one grid cell. -/
structure CellStats where
  mean : ℝ
  std : ℝ
  sharpe : Option ℝ

/-- The per-cell aggregation of `run_sharpe_sweep`: `mu = np.mean(daily_returns)`,
`sig = np.std(daily_returns, ddof=0)` (population divisor = day count), and
`sharpe = mu / sig if sig > 0 else np.nan` (`none` models the NaN marker). -/
noncomputable def aggregate (rs : List ℝ) : CellStats :=
  let mu := rs.sum / rs.length
  let sig := Real.sqrt ((rs.map (fun x => (x - mu) ^ 2)).sum / rs.length)
  { mean := mu, std := sig, sharpe := if sig > 0 then some (mu / sig) else none }

/-- The daily-return series of one grid cell (`n`, `lam`): one `dayReturn` per trading
day, over the day list computed once before the grid loops. -/
noncomputable def cellDailyReturns (rng : RNGModel) (cfg : RFFConfig) (k : ℕ)
    (el : List ERow) (days : List ℕ) (n : ℕ) (lam : ℝ) : Except String (List ℝ) :=
  mapME (fun d => dayReturn rng cfg k n lam (el.filter (fun e => e.day = d))) days

/-- `ExperimentConfig` from src/config.py (the fields `run_sharpe_sweep` reads). -/
structure ExperimentConfig where
  random_seed : ℕ
  n_factors_range : List ℕ
  lambdas : List ℝ

/-- `SweepResult`: for each n_factors value, for each lambda, the aggregated cell
statistics (the three DataFrames of the source, fused on their shared index). -/
structure SweepResult where
  cells : List (ℕ × List (ℝ × CellStats))

/-- `run_sharpe_sweep` from src/experiments/sharpe_sweep.py (`use_pls = False` path):
sort the panel, attach the rolling proxy, drop incomplete rows, compute the trading-day
list once, then sweep the (n_factors × lambda) grid, aggregating the daily returns of
each cell.   An exception anywhere (e.g. a singular ridge solve) aborts the sweep. -/
noncomputable def run_sharpe_sweep (rng : RNGModel) (p : List Row) (k : ℕ)
    (cfg : ExperimentConfig) : Except String SweepResult :=
  let el := preprocess p
  let days := uniqueDays el
  let rcfg : RFFConfig := ⟨cfg.random_seed⟩
  Except.map (fun allCells => ({ cells := allCells } : SweepResult))
    (mapME (fun n =>
        Except.map (fun lamCells => (n, lamCells))
          (mapME (fun lam =>
              Except.map (fun rs => (lam, aggregate rs))
                (cellDailyReturns rng rcfg k el days n lam)) cfg.lambdas))
      cfg.n_factors_range)

/-- Follows the spec's words (§4.5): the proxy value at position `i` of an asset's
return series is the mean of the 5 returns at positions `i-5 .. i-1` — returns strictly
before the current day — defined only when all 5 exist (minimum window 5). -/
noncomputable def proxySpecAt (xs : List (Option ℝ)) (i : ℕ) : Option ℝ :=
  if 5 ≤ i then
    let win := (xs.drop (i - 5)).take 5
    if win.all Option.isSome then some ((win.filterMap id).sum / 5) else none
  else none

/-- Follows the spec's words: the whole proxy series of one asset. -/
noncomputable def proxySpec (xs : List (Option ℝ)) : List (Option ℝ) :=
  (List.range xs.length).map (proxySpecAt xs)

/-- Follows the spec's words (§4.6): population standard deviation of the daily
returns, divisor = day count (not day count − 1). -/
noncomputable def popStdSpec (rs : List ℝ) : ℝ :=
  Real.sqrt ((rs.map (fun x => (x - rs.sum / rs.length) ^ 2)).sum / rs.length)

/-! ### Concrete instances used by counterexamples and witnesses -/

/-- A concrete instance of the pseudorandom-source model (stand-in draw values; no
claim depends on the actual numbers drawn). -/
noncomputable def rngW : RNGModel :=
  ⟨fun s k n i j => ((s + k + n + i + j : ℕ) : ℝ) / 7, fun _ _ _ => 0⟩

/-- A panel row with no factor columns. -/
def panelRow (d a : ℕ) (r : Option ℝ) : Row := ⟨d, a, r, []⟩

/-- Panel for the C1 scenario: 2 assets, 6 trading days, all returns present (zero),
no factor columns.  Day 5 is the single day surviving the 5-day rolling-window filter,
with both assets. -/
noncomputable def panelC1 : List Row :=
  [panelRow 0 1 (some 0), panelRow 0 2 (some 0),
   panelRow 1 1 (some 0), panelRow 1 2 (some 0),
   panelRow 2 1 (some 0), panelRow 2 2 (some 0),
   panelRow 3 1 (some 0), panelRow 3 2 (some 0),
   panelRow 4 1 (some 0), panelRow 4 2 (some 0),
   panelRow 5 1 (some 0), panelRow 5 2 (some 0)]

/-- Config for the C1 scenario: one feature count (1) and the single lambda 0, for
which the 2×2 feature covariance of a 2-asset day is necessarily singular. -/
noncomputable def cfgC1 : ExperimentConfig := ⟨42, [1], [0]⟩

/-- Panel for the C2 scenario: as `panelC1`, except asset 2 is missing its realized
return on day 5. -/
noncomputable def panelC2 : List Row :=
  [panelRow 0 1 (some 0), panelRow 0 2 (some 0),
   panelRow 1 1 (some 0), panelRow 1 2 (some 0),
   panelRow 2 1 (some 0), panelRow 2 2 (some 0),
   panelRow 3 1 (some 0), panelRow 3 2 (some 0),
   panelRow 4 1 (some 0), panelRow 4 2 (some 0),
   panelRow 5 1 (some 0), panelRow 5 2 none]

/-- Config with an empty feature-count list (C3 scenario). -/
noncomputable def cfgC3 : ExperimentConfig := ⟨42, [], [1]⟩

/-- A second config with an empty feature-count list (C3 witness). -/
noncomputable def cfgC3b : ExperimentConfig := ⟨7, [], [0.5, 1]⟩

/-- A concrete filtered day slice: one day (5) with two assets, zero proxy and
realized returns, no factor columns. -/
noncomputable def elW : List ERow := [⟨5, 1, 0, 0, []⟩, ⟨5, 2, 0, 0, []⟩]

/-- A concrete 1×1 exposure matrix. -/
noncomputable def matW : Matrix (Fin 1) (Fin 1) ℝ := fun _ _ => 0

/-- A concrete 1×0 exposure matrix (no factor columns). -/
def matW0 : Matrix (Fin 1) (Fin 0) ℝ := fun _ j => Fin.elim0 j

/-! ### Helper lemmas -/

theorem mapME_isErr_of_mem {β γ : Type} (f : β → Except String γ) {l : List β} {x : β}
    (hx : x ∈ l) (hf : (f x).isErr = true) : (mapME f l).isErr = true := by
  induction l with
  | nil => cases hx
  | cons a l ih =>
    simp only [mapME]
    cases hfa : f a with
    | error e => rfl
    | ok y =>
      rcases List.mem_cons.mp hx with rfl | hx2
      · rw [hfa] at hf; simp [Except.isErr] at hf
      · have hl := ih hx2
        cases hml : mapME f l with
        | error e => rfl
        | ok ys => rw [hml] at hl; simp [Except.isErr] at hl

theorem isErr_map {α β : Type} (g : α → β) (e : Except String α) :
    (Except.map g e).isErr = e.isErr := by
  cases e <;> rfl

theorem mapME_ok_length {β γ : Type} (f : β → Except String γ) :
    ∀ {l : List β} {ys : List γ}, mapME f l = .ok ys → ys.length = l.length := by
  intro l
  induction l with
  | nil => intro ys h; simp only [mapME] at h; cases h; rfl
  | cons a l ih =>
    intro ys h
    simp only [mapME] at h
    cases hfa : f a with
    | error e => rw [hfa] at h; cases h
    | ok y =>
      rw [hfa] at h
      cases hml : mapME f l with
      | error e => rw [hml] at h; cases h
      | ok zs => rw [hml] at h; cases h; simp [ih hml]

theorem rffProj_k0 (rng : RNGModel) (seed : ℕ) {m : ℕ} (X : Matrix (Fin m) (Fin 0) ℝ)
    (n : ℕ) (i : Fin m) (j : Fin n) : rffProj rng seed X n i j = 0 := by
  unfold rffProj
  simp

theorem rff_features_const (rng : RNGModel) (cfg : RFFConfig) {m : ℕ}
    (X : Matrix (Fin m) (Fin 0) ℝ) (n : ℕ) (i i' : Fin m) (j : Fin (2 * n)) :
    rff_features rng cfg X n i j = rff_features rng cfg X n i' j := by
  unfold rff_features
  split <;> rw [rffProj_k0, rffProj_k0]

theorem cov_const_cols {m d : ℕ} (X : Matrix (Fin m) (Fin d) ℝ) (y : Fin m → ℝ)
    (hc : ∀ (i i' : Fin m) (j : Fin d), X i j = X i' j) :
    (expected_return_and_cov X y).2 = 0 := by
  funext j l
  show (∑ i, (X i j - colMean X j) * (X i l - colMean X l)) / ((m : ℝ) - 1) = 0
  rcases Nat.eq_zero_or_pos m with hm | hm
  · subst hm; simp
  · have i0 : Fin m := ⟨0, hm⟩
    have hm' : (m : ℝ) ≠ 0 := Nat.cast_ne_zero.mpr (by omega)
    have hmean : ∀ j' : Fin d, colMean X j' = X i0 j' := by
      intro j'
      unfold colMean
      rw [Finset.sum_congr rfl (fun i _ => hc i i0 j')]
      rw [Finset.sum_const, Finset.card_univ, Fintype.card_fin, nsmul_eq_mul]
      exact mul_div_cancel_left₀ _ hm'
    rw [Finset.sum_congr rfl (fun i _ => by
      rw [hmean j, hmean l, hc i i0 j, hc i i0 l]; try ring)]
    simp

theorem dayCov_k0 (rng : RNGModel) (cfg : RFFConfig) (n : ℕ) (rows : List ERow) :
    dayCov rng cfg 0 n rows = 0 := by
  unfold dayCov dayFeats
  exact cov_const_cols _ _ (fun i i' j => rff_features_const rng cfg _ n i i' j)

theorem solveOne_error_of_det {d : ℕ} (F : Fin d → ℝ) (cov : Matrix (Fin d) (Fin d) ℝ)
    (lam : ℝ) (h : (cov + lam • 1).det = 0) :
    solveOne F cov lam = .error "Singular matrix" := by
  unfold solveOne
  rw [if_pos h]

theorem dayReturn_error_of_det (rng : RNGModel) (cfg : RFFConfig) (k n : ℕ) (lam : ℝ)
    (rows : List ERow) (h : (dayCov rng cfg k n rows + lam • 1).det = 0) :
    dayReturn rng cfg k n lam rows = .error "Singular matrix" := by
  have hs := solveOne_error_of_det (dayF rng cfg k n rows) (dayCov rng cfg k n rows) lam h
  unfold dayReturn ridge_markowitz_weights
  simp only [mapME, hs]
  rfl

theorem det_dayCov_k0_lam0 (rng : RNGModel) (cfg : RFFConfig) (n : ℕ)
    (rows : List ERow) (hn : 1 ≤ n) :
    (dayCov rng cfg 0 n rows + (0 : ℝ) • 1).det = 0 := by
  rw [dayCov_k0, zero_smul, add_zero]
  exact Matrix.det_zero ⟨⟨0, by omega⟩⟩

theorem dayReturn_k0_lam0 (rng : RNGModel) (cfg : RFFConfig) (n : ℕ)
    (rows : List ERow) (hn : 1 ≤ n) :
    dayReturn rng cfg 0 n 0 rows = .error "Singular matrix" :=
  dayReturn_error_of_det rng cfg 0 n 0 rows (det_dayCov_k0_lam0 rng cfg n rows hn)

theorem dayF_zero (rng : RNGModel) (cfg : RFFConfig) (k n : ℕ) (rows : List ERow)
    (hp : proxyVec rows = 0) : dayF rng cfg k n rows = 0 := by
  unfold dayF expected_return_and_cov
  funext j
  dsimp only
  rw [hp]
  simp

theorem dayReturn_k0_ok (rng : RNGModel) (cfg : RFFConfig) (n : ℕ) (lam : ℝ)
    (rows : List ERow) (hlam : lam ≠ 0) (hp : proxyVec rows = 0) :
    dayReturn rng cfg 0 n lam rows = .ok 0 := by
  have hdet : ((dayCov rng cfg 0 n rows) + lam • 1).det ≠ 0 := by
    rw [dayCov_k0, zero_add, Matrix.det_smul, Matrix.det_one, mul_one]
    exact pow_ne_zero _ hlam
  have hsolve : solveOne (dayF rng cfg 0 n rows) (dayCov rng cfg 0 n rows) lam
      = .ok (0 : Fin (2 * n) → ℝ) := by
    unfold solveOne
    rw [if_neg hdet, dayF_zero rng cfg 0 n rows hp, Matrix.mulVec_zero]
  unfold dayReturn ridge_markowitz_weights
  simp only [mapME, hsolve]
  simp [Except.map, Matrix.zero_dotProduct]

theorem mem_foldl_dedup (x : ℕ) :
    ∀ (l acc : List ℕ),
      (x ∈ l.foldl (fun a d => if d ∈ a then a else a ++ [d]) acc ↔ x ∈ acc ∨ x ∈ l) := by
  intro l
  induction l with
  | nil => intro acc; simp
  | cons b l ih =>
    intro acc
    rw [List.foldl_cons, ih]
    by_cases hb : b ∈ acc
    · simp only [if_pos hb, List.mem_cons]
      constructor
      · rintro (h | h)
        · exact Or.inl h
        · exact Or.inr (Or.inr h)
      · rintro (h | rfl | h)
        · exact Or.inl h
        · exact Or.inl hb
        · exact Or.inr h
    · simp only [if_neg hb, List.mem_append, List.mem_singleton, List.mem_cons]
      tauto

theorem mem_uniqueDays (el : List ERow) (d : ℕ) :
    d ∈ uniqueDays el ↔ ∃ e ∈ el, e.day = d := by
  unfold uniqueDays
  rw [mem_foldl_dedup]
  simp [List.mem_map]

theorem rollingAt_eq_proxySpecAt (xs : List (Option ℝ)) (j : ℕ) :
    rollingAt xs j = proxySpecAt xs (j + 1) := by
  unfold rollingAt proxySpecAt
  rcases Nat.lt_or_ge j 4 with h | h
  · rw [if_neg (by omega), if_neg (by omega)]
  · have hsub : j + 1 - 5 = j - 4 := by omega
    have h1 : 5 ≤ j + 1 := by omega
    rw [if_pos h, hsub, if_pos h1]

theorem dot_self_nonneg {d : ℕ} (w : Fin d → ℝ) : 0 ≤ w ⬝ᵥ w := by
  unfold Matrix.dotProduct
  exact Finset.sum_nonneg fun i _ => mul_self_nonneg _

theorem dot_sq_le {d : ℕ} (v w : Fin d → ℝ) : (v ⬝ᵥ w) ^ 2 ≤ (v ⬝ᵥ v) * (w ⬝ᵥ w) := by
  unfold Matrix.dotProduct
  calc (∑ i, v i * w i) ^ 2 ≤ (∑ i, v i ^ 2) * (∑ i, w i ^ 2) :=
        Finset.sum_mul_sq_le_sq_mul_sq Finset.univ v w
    _ = (∑ i, v i * v i) * (∑ i, w i * w i) := by simp [sq]

theorem ridge_sq_norm_mono {d : ℕ} (cov : Matrix (Fin d) (Fin d) ℝ) (F w1 w2 : Fin d → ℝ)
    (lam1 lam2 : ℝ)
    (hpsd : ∀ x : Fin d → ℝ, 0 ≤ x ⬝ᵥ cov.mulVec x)
    (hl1 : 0 < lam1) (hl12 : lam1 ≤ lam2)
    (he1 : cov.mulVec w1 + lam1 • w1 = F) (he2 : cov.mulVec w2 + lam2 • w2 = F) :
    w2 ⬝ᵥ w2 ≤ w1 ⬝ᵥ w1 := by
  have hAnn : 0 ≤ w1 ⬝ᵥ w1 := dot_self_nonneg w1
  have hBnn : 0 ≤ w2 ⬝ᵥ w2 := dot_self_nonneg w2
  have hCS : (w1 ⬝ᵥ w2) ^ 2 ≤ (w1 ⬝ᵥ w1) * (w2 ⬝ᵥ w2) := dot_sq_le w1 w2
  have hquad := hpsd (w1 - w2)
  have hmv : cov.mulVec (w1 - w2) = (lam2 • w2) - (lam1 • w1) := by
    rw [Matrix.mulVec_sub, eq_sub_of_add_eq he1, eq_sub_of_add_eq he2]
    abel
  rw [hmv] at hquad
  have hexp : (w1 - w2) ⬝ᵥ ((lam2 • w2) - (lam1 • w1))
      = (lam1 + lam2) * (w1 ⬝ᵥ w2) - lam1 * (w1 ⬝ᵥ w1) - lam2 * (w2 ⬝ᵥ w2) := by
    have hcomm : w2 ⬝ᵥ w1 = w1 ⬝ᵥ w2 := Matrix.dotProduct_comm w2 w1
    simp only [Matrix.dotProduct, Pi.sub_apply, Pi.smul_apply, smul_eq_mul] at hcomm ⊢
    rw [← hcomm]
    rw [Finset.mul_sum, Finset.mul_sum, Finset.mul_sum, ← Finset.sum_sub_distrib,
      ← Finset.sum_sub_distrib]
    apply Finset.sum_congr rfl
    intro i _
    ring
  rw [hexp] at hquad
  by_contra hcon
  push_neg at hcon
  have hBpos : 0 < w2 ⬝ᵥ w2 := lt_of_le_of_lt hAnn hcon
  have hl2 : 0 < lam2 := lt_of_lt_of_le hl1 hl12
  have hCpos : 0 < w1 ⬝ᵥ w2 := by
    nlinarith [mul_pos hl2 hBpos, mul_nonneg hl1.le hAnn, mul_pos (show (0:ℝ) < lam1 + lam2 by linarith) hBpos]
  have hle : lam1 * (w1 ⬝ᵥ w1) + lam2 * (w2 ⬝ᵥ w2) ≤ (lam1 + lam2) * (w1 ⬝ᵥ w2) := by
    linarith
  have hnn : 0 ≤ lam1 * (w1 ⬝ᵥ w1) + lam2 * (w2 ⬝ᵥ w2) := by positivity
  have hsq : (lam1 * (w1 ⬝ᵥ w1) + lam2 * (w2 ⬝ᵥ w2)) ^ 2 ≤ ((lam1 + lam2) * (w1 ⬝ᵥ w2)) ^ 2 :=
    pow_le_pow_left₀ hnn hle 2
  have hkey : (lam1 * (w1 ⬝ᵥ w1) + lam2 * (w2 ⬝ᵥ w2)) ^ 2
      ≤ (lam1 + lam2) ^ 2 * ((w1 ⬝ᵥ w1) * (w2 ⬝ᵥ w2)) := by nlinarith [sq_nonneg (lam1 + lam2)]
  have hpoly : ((w2 ⬝ᵥ w2) - (w1 ⬝ᵥ w1)) * (lam2 ^ 2 * (w2 ⬝ᵥ w2) - lam1 ^ 2 * (w1 ⬝ᵥ w1)) ≤ 0 := by
    nlinarith [hkey]
  have hll : lam1 ^ 2 ≤ lam2 ^ 2 := by
    nlinarith [mul_nonneg (sub_nonneg.mpr hl12) (show (0:ℝ) ≤ lam1 + lam2 by linarith)]
  have h2 : 0 < lam2 ^ 2 * (w2 ⬝ᵥ w2) - lam1 ^ 2 * (w1 ⬝ᵥ w1) := by
    nlinarith [mul_pos (mul_pos hl1 hl1) (sub_pos.mpr hcon), mul_nonneg (sub_nonneg.mpr hll) hBnn]
  exact absurd hpoly (not_le.mpr (mul_pos (sub_pos.mpr hcon) h2))

theorem ridge_sq_norm_bound {d : ℕ} (cov : Matrix (Fin d) (Fin d) ℝ) (F w : Fin d → ℝ)
    (lam : ℝ) (hpsd : ∀ x : Fin d → ℝ, 0 ≤ x ⬝ᵥ cov.mulVec x) (hl : 0 < lam)
    (he : cov.mulVec w + lam • w = F) :
    lam ^ 2 * (w ⬝ᵥ w) ≤ F ⬝ᵥ F := by
  have hB := dot_self_nonneg w
  have hF := dot_self_nonneg F
  have hq := hpsd w
  have hwF : w ⬝ᵥ F = w ⬝ᵥ cov.mulVec w + lam * (w ⬝ᵥ w) := by
    rw [← he, Matrix.dotProduct_add, Matrix.dotProduct_smul, smul_eq_mul]
  have hCS : (w ⬝ᵥ F) ^ 2 ≤ (w ⬝ᵥ w) * (F ⬝ᵥ F) := dot_sq_le w F
  rcases eq_or_lt_of_le hB with hB0 | hBpos
  · rw [← hB0, mul_zero]
    exact hF
  · have h1 : lam * (w ⬝ᵥ w) ≤ w ⬝ᵥ F := by linarith
    have hnn : 0 ≤ lam * (w ⬝ᵥ w) := by positivity
    have hsq : (lam * (w ⬝ᵥ w)) ^ 2 ≤ (w ⬝ᵥ F) ^ 2 := pow_le_pow_left₀ hnn h1 2
    nlinarith [hBpos]

theorem solveOne_ok_equation {d : ℕ} (F : Fin d → ℝ) (cov : Matrix (Fin d) (Fin d) ℝ)
    (lam : ℝ) (w : Fin d → ℝ) (h : solveOne F cov lam = .ok w) :
    cov.mulVec w + lam • w = F := by
  unfold solveOne at h
  split_ifs at h with hdet
  rw [Except.ok.injEq] at h
  subst h
  have hu : IsUnit (cov + lam • 1).det := isUnit_iff_ne_zero.mpr hdet
  have hQ : ∀ x : Fin d → ℝ, cov.mulVec x + lam • x = (cov + lam • 1).mulVec x := by
    intro x
    rw [Matrix.add_mulVec, Matrix.smul_mulVec_assoc, Matrix.one_mulVec]
  rw [hQ, Matrix.mulVec_mulVec, Matrix.mul_nonsing_inv _ hu, Matrix.one_mulVec]

theorem run_sharpe_sweep_isErr_of_cell (rng : RNGModel) (p : List Row) (k : ℕ)
    (cfg : ExperimentConfig) (n : ℕ) (lam : ℝ)
    (hn : n ∈ cfg.n_factors_range) (hl : lam ∈ cfg.lambdas)
    (hc : (cellDailyReturns rng ⟨cfg.random_seed⟩ k (preprocess p)
        (uniqueDays (preprocess p)) n lam).isErr = true) :
    (run_sharpe_sweep rng p k cfg).isErr = true := by
  unfold run_sharpe_sweep
  rw [isErr_map]
  apply mapME_isErr_of_mem _ hn
  rw [isErr_map]
  apply mapME_isErr_of_mem _ hl
  rw [isErr_map]
  exact hc

/-- C2 (amended): rows whose proxy target or realized return is missing are dropped
individually, not whole days: a trading day is evaluated iff at least one of its rows
survives the row-wise `dropna`, regardless of other assets of the day being missing,
and no minimum-asset-count exclusion exists. -/
theorem claim2_amended (p : List Row) (d : ℕ) :
    d ∈ uniqueDays (preprocess p) ↔
      ∃ rp ∈ withProxy (sortPanel p),
        rp.1.day = d ∧ rp.2.isSome = true ∧ rp.1.ret.isSome = true := by
  rw [mem_uniqueDays]
  unfold preprocess dropna
  constructor
  · rintro ⟨e, he, hday⟩
    rcases List.mem_filterMap.mp he with ⟨rp, hrp, hfn⟩
    rcases rp with ⟨r, pa⟩
    cases hpa : pa with
    | none => subst hpa; simp [dropnaFun] at hfn
    | some a =>
      subst hpa
      cases hr : r.ret with
      | none => simp [dropnaFun, hr] at hfn
      | some t =>
        refine ⟨(r, some a), hrp, ?_, by simp, by simp [hr]⟩
        simp [dropnaFun, hr] at hfn
        subst hfn
        exact hday
  · rintro ⟨⟨r, pa⟩, hrp, hday, hpa, hr⟩
    rcases Option.isSome_iff_exists.mp hpa with ⟨a, ha⟩
    rcases Option.isSome_iff_exists.mp hr with ⟨t, ht⟩
    subst ha
    exact ⟨⟨r.day, r.asset, t, a, r.factors⟩,
      List.mem_filterMap.mpr ⟨(r, some a), hrp, by
        unfold dropnaFun
        rw [show r.ret = some t from ht]⟩, hday⟩

theorem proxyVec_elW : proxyVec elW = 0 := by
  funext i
  fin_cases i <;> rfl

theorem filter_elW : elW.filter (fun e => e.day = 5) = elW := rfl

theorem uniqueDays_panelC1 : uniqueDays (preprocess panelC1) = [5] := by decide

theorem uniqueDays_panelC2 : uniqueDays (preprocess panelC2) = [5] := by decide

theorem cellW1 : cellDailyReturns rngW ⟨42⟩ 0 elW [5] 1 1 = .ok [0] := by
  unfold cellDailyReturns
  simp only [mapME, filter_elW, dayReturn_k0_ok rngW ⟨42⟩ 1 1 elW one_ne_zero proxyVec_elW]

theorem cellW2 : cellDailyReturns rngW ⟨42⟩ 0 elW [5] 1 2 = .ok [0] := by
  unfold cellDailyReturns
  simp only [mapME, filter_elW, dayReturn_k0_ok rngW ⟨42⟩ 1 2 elW two_ne_zero proxyVec_elW]

/-! ### Claim theorems -/

/-- C1 (counterexample): on a concrete panel (2 assets, 6 days, no factor columns) and
grid `n_factors = [1]`, `lambdas = [0]`, the ridge system of the single cell is
singular and the whole sweep aborts with an error — it does not record the cell as an
undefined result and continue to a result. -/
theorem claim1_counterexample : (run_sharpe_sweep rngW panelC1 0 cfgC1).isErr = true := by
  apply run_sharpe_sweep_isErr_of_cell rngW panelC1 0 cfgC1 1 0
    (List.mem_singleton.mpr rfl) (List.mem_singleton.mpr rfl)
  unfold cellDailyReturns
  rw [uniqueDays_panelC1]
  apply mapME_isErr_of_mem _ (List.mem_singleton.mpr rfl)
  rw [dayReturn_k0_lam0 rngW ⟨cfgC1.random_seed⟩ 1 _ (le_refl 1)]
  rfl

/-- C1 (amended): for every grid cell whose ridge system `Cov + lam * I` is singular,
the solver fails explicitly with an error (it does not silently return NaN weights) —
but the sweep does not record the cell as an undefined result and continue: the
uncaught error aborts the entire sweep. -/
theorem claim1_amended (rng : RNGModel) (p : List Row) (k : ℕ) (cfg : ExperimentConfig)
    (n : ℕ) (lam : ℝ) (d : ℕ)
    (hn : n ∈ cfg.n_factors_range) (hl : lam ∈ cfg.lambdas)
    (hd : d ∈ uniqueDays (preprocess p))
    (hs : (dayCov rng ⟨cfg.random_seed⟩ k n ((preprocess p).filter (fun e => e.day = d))
        + lam • 1).det = 0) :
    (ridge_markowitz_weights
        (dayF rng ⟨cfg.random_seed⟩ k n ((preprocess p).filter (fun e => e.day = d)))
        (dayCov rng ⟨cfg.random_seed⟩ k n ((preprocess p).filter (fun e => e.day = d)))
        [lam]).isErr = true
    ∧ (run_sharpe_sweep rng p k cfg).isErr = true := by
  constructor
  · unfold ridge_markowitz_weights
    apply mapME_isErr_of_mem _ (List.mem_singleton.mpr rfl)
    rw [solveOne_error_of_det _ _ _ hs]
    rfl
  · apply run_sharpe_sweep_isErr_of_cell rng p k cfg n lam hn hl
    unfold cellDailyReturns
    apply mapME_isErr_of_mem _ hd
    rw [dayReturn_error_of_det rng ⟨cfg.random_seed⟩ k n lam _ hs]
    rfl

theorem claim1_amended_witness :
    (ridge_markowitz_weights
        (dayF rngW ⟨42⟩ 0 1 ((preprocess panelC1).filter (fun e => e.day = 5)))
        (dayCov rngW ⟨42⟩ 0 1 ((preprocess panelC1).filter (fun e => e.day = 5)))
        [0]).isErr = true
    ∧ (run_sharpe_sweep rngW panelC1 0 cfgC1).isErr = true :=
  claim1_amended rngW panelC1 0 cfgC1 1 0 5
    (List.mem_singleton.mpr rfl) (List.mem_singleton.mpr rfl)
    (by rw [uniqueDays_panelC1]; exact List.mem_singleton.mpr rfl)
    (det_dayCov_k0_lam0 rngW ⟨42⟩ 1 _ (le_refl 1))

/-- C2 (counterexample): in `panelC2`, day 5 has an asset with a missing realized
return (first conjunct), yet day 5 is still evaluated (second conjunct) on exactly the
1 remaining asset (third conjunct) — the day is neither dropped entirely nor excluded
for having fewer than 2 assets. -/
theorem claim2_counterexample :
    (panelC2.filter (fun r => r.day = 5 ∧ r.ret.isNone = true)).length = 1
    ∧ uniqueDays (preprocess panelC2) = [5]
    ∧ ((preprocess panelC2).filter (fun e => e.day = 5)).length = 1 := by
  refine ⟨by decide, uniqueDays_panelC2, by decide⟩

/-- C3 (counterexample): with an empty feature-count list, the sweep does not fail
fatally before per-day computation — it returns an empty result without error. -/
theorem claim3_counterexample : run_sharpe_sweep rngW [] 0 cfgC3 = .ok ⟨[]⟩ := rfl

/-- C3 (amended): the sweep performs no upfront configuration validation.  With an
empty feature-count list it silently returns a result with no cells instead of failing
fatally; invalid values are only ever hit inside the per-day computation. -/
theorem claim3_amended (rng : RNGModel) (p : List Row) (k : ℕ) (cfg : ExperimentConfig)
    (h : cfg.n_factors_range = []) : run_sharpe_sweep rng p k cfg = .ok ⟨[]⟩ := by
  unfold run_sharpe_sweep
  rw [h]
  rfl

theorem claim3_amended_witness :
    run_sharpe_sweep rngW [panelRow 0 1 (some 0)] 0 cfgC3b = .ok ⟨[]⟩ :=
  claim3_amended rngW [panelRow 0 1 (some 0)] 0 cfgC3b rfl

/-- C4: for a fixed seed and fixed feature count `n`, the random feature mapper is a
pure function of the seed and its input — two invocations with equal seeds draw
bit-identical `omega` and `gamma` and produce identical output.  Since `rffOmega` and
`rffGamma` depend only on `(seed, k, n)` and `dayFeats` calls `rff_features` with the
single sweep-wide config, the same projection is used for every trading day and every
lambda evaluated under a given `n_factors`. -/
theorem claim4_determinism (rng : RNGModel) (cfg cfg2 : RFFConfig) (k n : ℕ)
    (h : cfg.random_seed = cfg2.random_seed) :
    rffOmega rng cfg.random_seed k n = rffOmega rng cfg2.random_seed k n
    ∧ rffGamma rng cfg.random_seed k n = rffGamma rng cfg2.random_seed k n
    ∧ ∀ (m : ℕ) (X : Matrix (Fin m) (Fin k) ℝ),
        rff_features rng cfg X n = rff_features rng cfg2 X n := by
  refine ⟨by rw [h], by rw [h], ?_⟩
  intro m X
  funext i j
  simp only [rff_features, rffProj, h]

theorem claim4_witness :
    rffOmega rngW 42 1 1 = rffOmega rngW 42 1 1
    ∧ rffGamma rngW 42 1 1 = rffGamma rngW 42 1 1
    ∧ rff_features rngW ⟨42⟩ matW 1 = rff_features rngW ⟨42⟩ matW 1 :=
  ⟨(claim4_determinism rngW ⟨42⟩ ⟨42⟩ 1 1 rfl).1,
   (claim4_determinism rngW ⟨42⟩ ⟨42⟩ 1 1 rfl).2.1,
   (claim4_determinism rngW ⟨42⟩ ⟨42⟩ 1 1 rfl).2.2 1 matW⟩

/-- C5: for every exposure matrix `X` and feature count `n ≥ 1`, the mapper output has
exactly `2 * n` columns (its type), arranged as the `n` cosine columns
`sqrt(2/n) * cos(P)` followed by the `n` sine columns `sqrt(2/n) * sin(P)` with
`P = X * omega * gamma`, and every entry lies in `[-sqrt(2/n), sqrt(2/n)]`. -/
theorem claim5_shape_bounds (rng : RNGModel) (cfg : RFFConfig) {m k : ℕ} (n : ℕ)
    (hn : 1 ≤ n) (X : Matrix (Fin m) (Fin k) ℝ) :
    (∀ (i : Fin m) (j : Fin (2 * n)) (hj : (j : ℕ) < n),
        rff_features rng cfg X n i j
          = Real.sqrt (2 / n) * Real.cos (rffProj rng cfg.random_seed X n i ⟨j, hj⟩))
    ∧ (∀ (i : Fin m) (j : Fin (2 * n)) (hj2 : n ≤ (j : ℕ)),
        rff_features rng cfg X n i j
          = Real.sqrt (2 / n)
            * Real.sin (rffProj rng cfg.random_seed X n i
                ⟨(j : ℕ) - n, by have := j.isLt; omega⟩))
    ∧ ∀ (i : Fin m) (j : Fin (2 * n)),
        rff_features rng cfg X n i j ∈ Set.Icc (-Real.sqrt (2 / n)) (Real.sqrt (2 / n)) := by
  refine ⟨?_, ?_, ?_⟩
  · intro i j hj
    simp only [rff_features]
    rw [dif_pos hj]
  · intro i j hj2
    simp only [rff_features]
    rw [dif_neg (by omega)]
  · intro i j
    have h0 : 0 ≤ Real.sqrt (2 / n) := Real.sqrt_nonneg _
    rw [Set.mem_Icc]
    simp only [rff_features]
    split
    · constructor <;>
        nlinarith [Real.neg_one_le_cos (rffProj rng cfg.random_seed X n i ⟨(j : ℕ), by omega⟩),
          Real.cos_le_one (rffProj rng cfg.random_seed X n i ⟨(j : ℕ), by omega⟩)]
    · constructor <;>
        nlinarith [Real.neg_one_le_sin (rffProj rng cfg.random_seed X n i
            ⟨(j : ℕ) - n, by have := j.isLt; omega⟩),
          Real.sin_le_one (rffProj rng cfg.random_seed X n i
            ⟨(j : ℕ) - n, by have := j.isLt; omega⟩)]

theorem claim5_witness :
    1 ≤ 1
    ∧ rff_features rngW ⟨42⟩ matW0 1 ⟨0, by omega⟩ ⟨0, by omega⟩
        ∈ Set.Icc (-Real.sqrt (2 / (1 : ℕ))) (Real.sqrt (2 / (1 : ℕ))) :=
  ⟨le_refl 1, (claim5_shape_bounds rngW ⟨42⟩ 1 (le_refl 1) matW0).2.2 ⟨0, by omega⟩ ⟨0, by omega⟩⟩

/-- C6: the proxy expected-return target of `_compute_past_return_avg` — the 5-day
trailing rolling mean (minimum window 5) shifted forward by one day — equals, at every
position of an asset's return series, the mean of the 5 returns strictly before the
current day, exactly as the spec words it (`proxySpec`). -/
theorem claim6_proxy_equals_spec (xs : List (Option ℝ)) :
    compute_past_return_avg xs = proxySpec xs := by
  unfold compute_past_return_avg proxySpec shift1
  apply List.ext_getElem
  · simp
  · intro i h1 h2
    rw [List.getElem_take]
    cases i with
    | zero =>
      simp [proxySpecAt]
    | succ j =>
      rw [List.getElem_cons_succ, List.getElem_map, List.getElem_range,
        List.getElem_map, List.getElem_range]
      exact rollingAt_eq_proxySpecAt xs j

/-- C7: whenever the standard deviation of a cell's collected daily returns is exactly
zero, the Sharpe entry produced by the aggregation (source lines computing
`mu / sig if sig > 0 else np.nan`) is the explicit undefined marker (`none`), not the
numeric result of a division. -/
theorem claim7_sharpe_undefined (rs : List ℝ) (h : (aggregate rs).std = 0) :
    (aggregate rs).sharpe = none := by
  have hs : (aggregate rs).sharpe
      = if (aggregate rs).std > 0 then some ((aggregate rs).mean / (aggregate rs).std)
        else none := rfl
  rw [hs, h]
  simp

theorem agg_single_std : (aggregate [(1 : ℝ)]).std = 0 := by
  have hs : (aggregate [(1 : ℝ)]).std
      = Real.sqrt ((([(1 : ℝ)].map
          (fun x => (x - [(1 : ℝ)].sum / ([(1 : ℝ)].length : ℕ)) ^ 2)).sum)
          / ([(1 : ℝ)].length : ℕ)) := rfl
  rw [hs]
  norm_num

theorem claim7_witness :
    (aggregate [(1 : ℝ)]).std = 0 ∧ (aggregate [(1 : ℝ)]).sharpe = none :=
  ⟨agg_single_std, claim7_sharpe_undefined [(1 : ℝ)] agg_single_std⟩

/-- C8: the std entry of a cell is the population standard deviation of the cell's
daily returns (`np.std(..., ddof=0)`, divisor = day count): it matches the spec-side
`popStdSpec`, and on the hand-computed series `[1, 2, 3]` it equals
`sqrt(2/3)` (divisor 3) and differs from the sample value `sqrt(2/2)` (divisor 2). -/
theorem claim8_population_std :
    (∀ rs : List ℝ, (aggregate rs).std = popStdSpec rs)
    ∧ (aggregate [(1 : ℝ), 2, 3]).mean = 2
    ∧ (aggregate [(1 : ℝ), 2, 3]).std = Real.sqrt (2 / 3)
    ∧ (aggregate [(1 : ℝ), 2, 3]).std ≠ Real.sqrt (2 / 2) := by
  have hgen : ∀ rs : List ℝ, (aggregate rs).std = popStdSpec rs := fun rs => rfl
  have hmean : (aggregate [(1 : ℝ), 2, 3]).mean = 2 := by
    have h : (aggregate [(1 : ℝ), 2, 3]).mean = [(1 : ℝ), 2, 3].sum / ([(1 : ℝ), 2, 3].length : ℕ) := rfl
    rw [h]
    norm_num
  have hstd : (aggregate [(1 : ℝ), 2, 3]).std = Real.sqrt (2 / 3) := by
    rw [hgen]
    unfold popStdSpec
    norm_num
  refine ⟨hgen, hmean, hstd, ?_⟩
  rw [hstd]
  intro hcon
  have hlt : Real.sqrt (2 / 3) < Real.sqrt (2 / 2) :=
    Real.sqrt_lt_sqrt (by norm_num) (by norm_num)
  rw [hcon] at hlt
  exact lt_irrefl _ hlt

/-- C9: the ridge property of `solveOne`.  For a fixed expected-return vector `F` and
a fixed positive-semidefinite covariance, if `w1` and `w2` are the solver's solutions
at penalties `0 < lam1 ≤ lam2`, then the (squared) norm of `w2` is at most that of
`w1` — the norm is non-increasing in lambda — and `lam2 ^ 2 * |w2|^2 ≤ |F|^2`, so the
norm shrinks toward zero (it is bounded by `|F| / lam`). -/
theorem claim9_ridge_monotone {d : ℕ} (cov : Matrix (Fin d) (Fin d) ℝ)
    (F w1 w2 : Fin d → ℝ) (lam1 lam2 : ℝ)
    (hsym : covᵀ = cov) (hpsd : ∀ x : Fin d → ℝ, 0 ≤ x ⬝ᵥ cov.mulVec x)
    (hl1 : 0 < lam1) (hl12 : lam1 ≤ lam2)
    (hw1 : solveOne F cov lam1 = .ok w1) (hw2 : solveOne F cov lam2 = .ok w2) :
    w2 ⬝ᵥ w2 ≤ w1 ⬝ᵥ w1 ∧ lam2 ^ 2 * (w2 ⬝ᵥ w2) ≤ F ⬝ᵥ F := by
  have he1 := solveOne_ok_equation F cov lam1 w1 hw1
  have he2 := solveOne_ok_equation F cov lam2 w2 hw2
  exact ⟨ridge_sq_norm_mono cov F w1 w2 lam1 lam2 hpsd hl1 hl12 he1 he2,
    ridge_sq_norm_bound cov F w2 lam2 hpsd (lt_of_lt_of_le hl1 hl12) he2⟩

theorem solveOne_zero_system (lam : ℝ) (hlam : lam ≠ 0) :
    solveOne (0 : Fin 1 → ℝ) (0 : Matrix (Fin 1) (Fin 1) ℝ) lam = .ok 0 := by
  unfold solveOne
  rw [zero_add]
  rw [if_neg (by
    rw [Matrix.det_smul, Matrix.det_one]
    simp [Fintype.card_fin, hlam])]
  rw [Matrix.mulVec_zero]

theorem claim9_witness :
    ((0 : Fin 1 → ℝ) ⬝ᵥ (0 : Fin 1 → ℝ) ≤ (0 : Fin 1 → ℝ) ⬝ᵥ (0 : Fin 1 → ℝ))
    ∧ (2 : ℝ) ^ 2 * ((0 : Fin 1 → ℝ) ⬝ᵥ (0 : Fin 1 → ℝ)) ≤ (0 : Fin 1 → ℝ) ⬝ᵥ (0 : Fin 1 → ℝ) :=
  claim9_ridge_monotone (0 : Matrix (Fin 1) (Fin 1) ℝ) 0 0 0 1 2
    Matrix.transpose_zero (fun x => by simp)
    one_pos one_le_two
    (solveOne_zero_system 1 one_ne_zero) (solveOne_zero_system 2 two_ne_zero)

/-- C10: `run_sharpe_sweep` computes the trading-day list once, before the grid loops,
and passes the same `days` to `cellDailyReturns` for every cell; consequently any two
successfully computed cells aggregate over daily-return series of the same length —
the day count of the sweep — making their mean/std/sharpe entries comparable. -/
theorem claim10_same_day_count (rng : RNGModel) (cfg : RFFConfig) (k : ℕ)
    (el : List ERow) (days : List ℕ) (n1 n2 : ℕ) (lam1 lam2 : ℝ) (rs1 rs2 : List ℝ)
    (h1 : cellDailyReturns rng cfg k el days n1 lam1 = .ok rs1)
    (h2 : cellDailyReturns rng cfg k el days n2 lam2 = .ok rs2) :
    rs1.length = days.length ∧ rs2.length = days.length ∧ rs1.length = rs2.length := by
  unfold cellDailyReturns at h1 h2
  have l1 := mapME_ok_length _ h1
  have l2 := mapME_ok_length _ h2
  exact ⟨l1, l2, l1.trans l2.symm⟩

theorem claim10_witness :
    ([(0 : ℝ)].length = [(5 : ℕ)].length) ∧ ([(0 : ℝ)].length = [(5 : ℕ)].length)
    ∧ ([(0 : ℝ)].length = [(0 : ℝ)].length) :=
  claim10_same_day_count rngW ⟨42⟩ 0 elW [5] 1 1 1 2 [0] [0] cellW1 cellW2
